import Mathlib

/-!
Verification of the job-submission document model of the `pai` webportal:
the `JobProtocol` class (src/webportal/src/app/job-submission/models/job-protocol.js)
and the `DockerInfo` class (src/webportal/src/app/job-submission/models/docker-info.js).

JavaScript runtime values are embedded as the inductive type `Value`
(strings, integer numbers, arrays, plain objects with insertion-ordered
fields).  Objects are association lists `List (String × Value)` with
insertion-ordered keys, matching JavaScript property-enumeration order.

External collaborators that are not part of the two source files
(the js-yaml serializer, the lodash helpers `removeEmptyProperties` /
`keyValueArrayReducer` from utils/utils.js, the Joi protocol schema and
the task-role / basic-info abstractions) are modelled from the
specification; each such definition carries a doc comment saying so.
-/

/-- A JavaScript runtime value as used by the document model: a string, an
integer number, an array, or a plain object with insertion-ordered string
keys.  (Floats, booleans, `null` and `undefined` do not occur in the
document shapes the claims are about; absence of a property is modelled by
`Option` at the use sites.) -/
inductive Value where
  | str : String → Value
  | num : Int → Value
  | seq : List Value → Value
  | map : List (String × Value) → Value
deriving Repr

/-- An object: insertion-ordered association list of properties. -/
abbrev Obj := List (String × Value)

mutual
/-- Boolean structural equality on `Value` (JavaScript deep equality of the
modelled data). -/
def vEq : Value → Value → Bool
  | .str a, .str b => a = b
  | .num a, .num b => a = b
  | .seq a, .seq b => vListEq a b
  | .map a, .map b => vFieldsEq a b
  | _, _ => false
/-- Elementwise `vEq` on arrays. -/
def vListEq : List Value → List Value → Bool
  | [], [] => true
  | a :: as, b :: bs => vEq a b && vListEq as bs
  | _, _ => false
/-- Fieldwise `vEq` on objects. -/
def vFieldsEq : Obj → Obj → Bool
  | [], [] => true
  | (k, v) :: as, (k2, v2) :: bs => k = k2 && vEq v v2 && vFieldsEq as bs
  | _, _ => false
end

mutual
theorem vEq_iff : ∀ a b, vEq a b = true ↔ a = b
  | .str _, .str _ => by simp [vEq]
  | .str _, .num _ => by simp [vEq]
  | .str _, .seq _ => by simp [vEq]
  | .str _, .map _ => by simp [vEq]
  | .num _, .str _ => by simp [vEq]
  | .num _, .num _ => by simp [vEq]
  | .num _, .seq _ => by simp [vEq]
  | .num _, .map _ => by simp [vEq]
  | .seq _, .str _ => by simp [vEq]
  | .seq _, .num _ => by simp [vEq]
  | .seq a, .seq b => by simp [vEq, vListEq_iff a b]
  | .seq _, .map _ => by simp [vEq]
  | .map _, .str _ => by simp [vEq]
  | .map _, .num _ => by simp [vEq]
  | .map _, .seq _ => by simp [vEq]
  | .map a, .map b => by simp [vEq, vFieldsEq_iff a b]
theorem vListEq_iff : ∀ a b, vListEq a b = true ↔ a = b
  | [], [] => by simp [vListEq]
  | [], _ :: _ => by simp [vListEq]
  | _ :: _, [] => by simp [vListEq]
  | a :: as, b :: bs => by simp [vListEq, vEq_iff a b, vListEq_iff as bs]
theorem vFieldsEq_iff : ∀ a b, vFieldsEq a b = true ↔ a = b
  | [], [] => by simp [vFieldsEq]
  | [], _ :: _ => by simp [vFieldsEq]
  | _ :: _, [] => by simp [vFieldsEq]
  | (k, v) :: as, (k2, v2) :: bs => by
      simp [vFieldsEq, vEq_iff v v2, vFieldsEq_iff as bs, and_assoc]
end

instance : DecidableEq Value := fun a b => decidable_of_iff (vEq a b = true) (vEq_iff a b)

/-- JavaScript truthiness of a modelled value: the empty string and the
number 0 are falsy; every array and every object (even empty ones) is
truthy. -/
def jsTruthy : Value → Bool
  | .str s => s ≠ ""
  | .num n => n ≠ 0
  | .seq _ => true
  | .map _ => true

/-- lodash `isEmpty` on a modelled value: empty string, empty array, empty
object are empty; every number is empty (numbers have no enumerable
properties). -/
def lodashIsEmpty : Value → Bool
  | .str s => s = ""
  | .num _ => true
  | .seq xs => xs.isEmpty
  | .map fs => fs.isEmpty

/-- A value that the pruning of empty fields removes: the empty string, the
empty array, or the empty object (spec §3/glossary: "empty string, empty
mapping, or empty sequence"). -/
def isEmptyValue : Value → Bool
  | .str s => s = ""
  | .num _ => false
  | .seq xs => xs.isEmpty
  | .map fs => fs.isEmpty

mutual
/-- JavaScript string coercion of a modelled value (`String(v)` /
`v.toString()`): strings are themselves, numbers print in decimal, arrays
join their coerced elements with commas, plain objects print as
"[object Object]". -/
def jsToStr : Value → String
  | .str s => s
  | .num n => toString n
  | .seq xs => jsToStrList xs
  | .map _ => "[object Object]"
/-- `Array.prototype.join` with separator "," on coerced elements. -/
def jsToStrList : List Value → String
  | [] => ""
  | [x] => jsToStr x
  | x :: y :: xs => jsToStr x ++ "," ++ jsToStrList (y :: xs)
end

/-- Keyed read (`o[k]` on an object, `map.get(k)` on a Map); `none` models
`undefined`.  Keys of the collections built here are unique, so the first
match is the entry. -/
def assocGet {α β : Type} [DecidableEq α] (m : List (α × β)) (k : α) : Option β :=
  match m with
  | [] => none
  | (k2, v) :: rest => if k2 = k then some v else assocGet rest k

/-- Keyed write (`o[k] = v` on an object, `map.set(k, v)` on a Map):
overwrites in place when the key exists (JavaScript keeps the original
insertion position), appends otherwise. -/
def assocSet {α β : Type} [DecidableEq α] (m : List (α × β)) (k : α) (v : β) : List (α × β) :=
  if m.any (fun e => e.1 = k) then
    m.map (fun e => if e.1 = k then (k, v) else e)
  else
    m ++ [(k, v)]

/-- Object spread `{...o, ...extra}`: every property of `extra` is written
onto `o` in order. -/
def mergeObj (o : Obj) (extra : Obj) : Obj :=
  extra.foldl (fun acc e => assocSet acc e.1 e.2) o

/-- lodash `get(o, 'a.b', dflt)`: follow the two-step path, returning
`dflt` only when the resolved value is `undefined` (a property read on a
non-object resolves to `undefined`). -/
def lodashGet2 (o : Obj) (k1 k2 : String) (dflt : Value) : Value :=
  match assocGet o k1 with
  | some (Value.map inner) =>
      match assocGet inner k2 with
      | some v => v
      | none => dflt
  | _ => dflt

mutual
/-- Modelled from the spec: `removeEmptyProperties` from
utils/utils.js (absent from src/).  Per the spec (§3, glossary), pruning
removes every object field whose value is an empty string, empty mapping
or empty sequence, recursively, before emission.  Fields are pruned after
their own contents have been pruned. -/
def pruneValue : Value → Value
  | .str s => .str s
  | .num n => .num n
  | .seq xs => .seq (pruneList xs)
  | .map fs => .map (pruneFields fs)
/-- Recursive pruning inside an array: elements are pruned but never
dropped (they are not object fields). -/
def pruneList : List Value → List Value
  | [] => []
  | x :: xs => pruneValue x :: pruneList xs
/-- Recursive pruning of the fields of an object: each value is pruned,
then fields whose pruned value is empty are removed. -/
def pruneFields : Obj → Obj
  | [] => []
  | (k, v) :: fs =>
    let v2 := pruneValue v
    if isEmptyValue v2 then pruneFields fs else (k, v2) :: pruneFields fs
end

/-- `removeEmptyProperties` as called in the source: prunes the fields of
an object. -/
def removeEmptyProperties (o : Obj) : Obj := pruneFields o

/-- Modelled from the spec: `keyValueArrayReducer` from utils/utils.js
(absent from src/).  Per spec §9, it folds a list of (singleton) objects
into one ordered mapping, later duplicate keys overwriting earlier
values. -/
def keyValueArrayReducer (acc : Obj) (next : Obj) : Obj := mergeObj acc next

mutual
/-- No object field anywhere in the value is empty-prunable (the property
claimed of serialized output: no field equal to the empty string, empty
mapping or empty sequence). -/
def noEmptyFieldsV : Value → Bool
  | .str _ => true
  | .num _ => true
  | .seq xs => noEmptyFieldsL xs
  | .map fs => noEmptyFieldsF fs
/-- `noEmptyFieldsV` on every element of an array. -/
def noEmptyFieldsL : List Value → Bool
  | [] => true
  | x :: xs => noEmptyFieldsV x && noEmptyFieldsL xs
/-- Every field value is non-empty and itself free of empty fields. -/
def noEmptyFieldsF : Obj → Bool
  | [] => true
  | (_, v) :: fs => !isEmptyValue v && noEmptyFieldsV v && noEmptyFieldsF fs
end

mutual
theorem noEmptyFields_pruneValue : ∀ v, noEmptyFieldsV (pruneValue v) = true
  | .str _ => rfl
  | .num _ => rfl
  | .seq xs => by simp [pruneValue, noEmptyFieldsV, noEmptyFields_pruneList xs]
  | .map fs => by simp [pruneValue, noEmptyFieldsV, noEmptyFields_pruneFields fs]
theorem noEmptyFields_pruneList : ∀ xs, noEmptyFieldsL (pruneList xs) = true
  | [] => rfl
  | x :: xs => by
      simp [pruneList, noEmptyFieldsL, noEmptyFields_pruneValue x, noEmptyFields_pruneList xs]
theorem noEmptyFields_pruneFields : ∀ fs, noEmptyFieldsF (pruneFields fs) = true
  | [] => rfl
  | (k, v) :: fs => by
      simp only [pruneFields]
      split
      · exact noEmptyFields_pruneFields fs
      · rename_i h
        simp [noEmptyFieldsF, h, noEmptyFields_pruneValue v, noEmptyFields_pruneFields fs]
end

mutual
theorem pruneValue_of_noEmpty : ∀ v, noEmptyFieldsV v = true → pruneValue v = v
  | .str _, _ => rfl
  | .num _, _ => rfl
  | .seq xs, h => by
      simp only [noEmptyFieldsV] at h
      simp [pruneValue, pruneList_of_noEmpty xs h]
  | .map fs, h => by
      simp only [noEmptyFieldsV] at h
      simp [pruneValue, pruneFields_of_noEmpty fs h]
theorem pruneList_of_noEmpty : ∀ xs, noEmptyFieldsL xs = true → pruneList xs = xs
  | [], _ => rfl
  | x :: xs, h => by
      simp only [noEmptyFieldsL, Bool.and_eq_true] at h
      simp [pruneList, pruneValue_of_noEmpty x h.1, pruneList_of_noEmpty xs h.2]
theorem pruneFields_of_noEmpty : ∀ fs, noEmptyFieldsF fs = true → pruneFields fs = fs
  | [], _ => rfl
  | (k, v) :: fs, h => by
      simp only [noEmptyFieldsF, Bool.and_eq_true] at h
      obtain ⟨⟨hne, hv⟩, hfs⟩ := h
      simp only [Bool.not_eq_true'] at hne
      simp only [pruneFields, pruneValue_of_noEmpty v hv]
      rw [if_neg (by simp [hne])]
      simp [pruneFields_of_noEmpty fs hfs]
end

/-! ## Model of the external serializer (js-yaml)

Modelled from the spec: the textual document format (spec §6) is owned by
an external serialization library (js-yaml `safeDump` / `safeLoad`), whose
concrete grammar is explicitly out of scope; the spec treats it as a
parser/serializer pair where serialization of a value can be parsed back.
It is modelled here as a concrete injective encoding of `Value` into text
together with a total parser that is verified to invert it; parsing of
arbitrary other text may fail, which models parse errors. -/

/-- A run of `n` stars: the length prefix used by the modelled encoding. -/
def starRun (n : Nat) : List Char := List.replicate n '*'

mutual
/-- Serialize a value to characters. -/
def dumpV : Value → List Char
  | .str s => 'S' :: starRun s.data.length ++ '|' :: s.data
  | .num i =>
    if 0 ≤ i then 'N' :: starRun i.toNat ++ ['|']
    else 'M' :: starRun (-i).toNat ++ ['|']
  | .seq xs => 'A' :: dumpItems xs ++ ['Z']
  | .map fs => 'O' :: dumpFields fs ++ ['Q']
/-- Serialize array elements in order. -/
def dumpItems : List Value → List Char
  | [] => []
  | x :: xs => dumpV x ++ dumpItems xs
/-- Serialize object fields in order. -/
def dumpFields : Obj → List Char
  | [] => []
  | (k, v) :: fs => 'F' :: starRun k.data.length ++ '|' :: k.data ++ (dumpV v ++ dumpFields fs)
end

/-- Read a star-run length prefix followed by a bar. -/
def parseCount (cs : List Char) : Option (Nat × List Char) :=
  let stars := cs.takeWhile (fun c => c = '*')
  match cs.drop stars.length with
  | '|' :: rest => some (stars.length, rest)
  | _ => none

/-- Read a length-prefixed chunk of characters. -/
def parseChunk (cs : List Char) : Option (List Char × List Char) :=
  match parseCount cs with
  | some (n, rest) => some (rest.take n, rest.drop n)
  | none => none

mutual
/-- Fueled parser for a single value. -/
def parseVal : Nat → List Char → Option (Value × List Char)
  | 0, _ => none
  | _ + 1, [] => none
  | fuel + 1, c :: cs =>
    if c = 'S' then
      match parseChunk cs with
      | some (body, rest) => some (.str (String.mk body), rest)
      | none => none
    else if c = 'N' then
      match parseCount cs with
      | some (n, rest) => some (.num (Int.ofNat n), rest)
      | none => none
    else if c = 'M' then
      match parseCount cs with
      | some (n, rest) => some (.num (-(Int.ofNat n)), rest)
      | none => none
    else if c = 'A' then
      match parseItems fuel cs with
      | some (xs, rest) => some (.seq xs, rest)
      | none => none
    else if c = 'O' then
      match parseFlds fuel cs with
      | some (fs, rest) => some (.map fs, rest)
      | none => none
    else none
/-- Fueled parser for array elements up to the closing mark. -/
def parseItems : Nat → List Char → Option (List Value × List Char)
  | 0, _ => none
  | _ + 1, [] => none
  | fuel + 1, c :: cs =>
    if c = 'Z' then some ([], cs)
    else
      match parseVal fuel (c :: cs) with
      | some (v, rest) =>
        match parseItems fuel rest with
        | some (vs, rest2) => some (v :: vs, rest2)
        | none => none
      | none => none
/-- Fueled parser for object fields up to the closing mark. -/
def parseFlds : Nat → List Char → Option (Obj × List Char)
  | 0, _ => none
  | _ + 1, [] => none
  | fuel + 1, c :: cs =>
    if c = 'Q' then some ([], cs)
    else if c = 'F' then
      match parseChunk cs with
      | some (kbody, rest) =>
        match parseVal fuel rest with
        | some (v, rest2) =>
          match parseFlds fuel rest2 with
          | some (fs, rest3) => some ((String.mk kbody, v) :: fs, rest3)
          | none => none
        | none => none
      | none => none
    else none
end

mutual
/-- Fuel sufficient to parse a dumped value. -/
def vsize : Value → Nat
  | .str _ => 1
  | .num _ => 1
  | .seq xs => 1 + lsize xs
  | .map fs => 1 + fsize fs
/-- Fuel sufficient to parse dumped array elements plus the closing mark. -/
def lsize : List Value → Nat
  | [] => 1
  | x :: xs => 1 + max (vsize x) (lsize xs)
/-- Fuel sufficient to parse dumped object fields plus the closing mark. -/
def fsize : Obj → Nat
  | [] => 1
  | (_, v) :: fs => 1 + max (vsize v) (fsize fs)
end

theorem takeWhile_starRun (n : Nat) (l : List Char) :
    (starRun n ++ '|' :: l).takeWhile (fun c => c = '*') = starRun n := by
  induction n with
  | zero => simp [starRun, List.takeWhile]
  | succ n ih => simp [starRun, List.replicate_succ, List.takeWhile, ih]

theorem drop_starRun (n : Nat) (l : List Char) :
    (starRun n ++ '|' :: l).drop n = '|' :: l := by
  induction n with
  | zero => simp [starRun]
  | succ n ih => simp [starRun, List.replicate_succ, ih]

theorem take_len_append {α : Type} (l r : List α) : (l ++ r).take l.length = l := by
  induction l with
  | nil => simp
  | cons a l ih => simp [ih]

theorem drop_len_append {α : Type} (l r : List α) : (l ++ r).drop l.length = r := by
  induction l with
  | nil => simp
  | cons a l ih => simp [ih]

theorem parseCount_spec (n : Nat) (rest : List Char) :
    parseCount (starRun n ++ '|' :: rest) = some (n, rest) := by
  simp [parseCount, takeWhile_starRun, starRun, drop_starRun]

theorem parseChunk_spec (body rest : List Char) :
    parseChunk (starRun body.length ++ '|' :: (body ++ rest)) = some (body, rest) := by
  simp [parseChunk, parseCount_spec, take_len_append, drop_len_append]

theorem dumpV_head (v : Value) :
    ∃ c cs, dumpV v = c :: cs ∧ (c = 'S' ∨ c = 'N' ∨ c = 'M' ∨ c = 'A' ∨ c = 'O') := by
  cases v with
  | str s => exact ⟨'S', _, rfl, by simp⟩
  | num i =>
    by_cases h : 0 ≤ i
    · exact ⟨'N', starRun i.toNat ++ ['|'], by simp [dumpV, h], by simp⟩
    · exact ⟨'M', starRun (-i).toNat ++ ['|'], by simp [dumpV, h], by simp⟩
  | seq xs => exact ⟨'A', _, rfl, by simp⟩
  | map fs => exact ⟨'O', _, rfl, by simp⟩

theorem string_mk_data (s : String) : String.mk s.data = s := String.ext rfl

theorem parse_dump (fuel : Nat) :
    (∀ v rest, vsize v ≤ fuel → parseVal fuel (dumpV v ++ rest) = some (v, rest)) ∧
    (∀ xs rest, lsize xs ≤ fuel →
      parseItems fuel (dumpItems xs ++ 'Z' :: rest) = some (xs, rest)) ∧
    (∀ fs rest, fsize fs ≤ fuel →
      parseFlds fuel (dumpFields fs ++ 'Q' :: rest) = some (fs, rest)) := by
  induction fuel with
  | zero =>
    refine ⟨fun v rest h => absurd h ?_, fun xs rest h => absurd h ?_,
      fun fs rest h => absurd h ?_⟩
    · cases v <;> simp [vsize]
    · cases xs <;> simp [lsize]
    · cases fs <;> simp [fsize]
  | succ fuel ih =>
    obtain ⟨ihV, ihL, ihF⟩ := ih
    refine ⟨?_, ?_, ?_⟩
    · intro v rest h
      match v with
      | .str s =>
        have : dumpV (.str s) ++ rest =
            'S' :: (starRun s.data.length ++ '|' :: (s.data ++ rest)) := by
          simp [dumpV]
        rw [this]
        have hpc := parseChunk_spec s.data rest
        simp only [parseVal, eq_self_iff_true, if_true]
        rw [hpc]
      | .num i =>
        by_cases hi : 0 ≤ i
        · have : dumpV (.num i) ++ rest = 'N' :: (starRun i.toNat ++ '|' :: rest) := by
            simp [dumpV, hi]
          rw [this]
          simp [parseVal, parseCount_spec, Int.toNat_of_nonneg hi]
        · have : dumpV (.num i) ++ rest = 'M' :: (starRun (-i).toNat ++ '|' :: rest) := by
            simp [dumpV, hi]
          rw [this]
          have hneg : Int.ofNat (-i).toNat = -i :=
            Int.toNat_of_nonneg (by omega)
          simp [parseVal, parseCount_spec, hneg]
          omega
      | .seq xs =>
        have heq : dumpV (.seq xs) ++ rest = 'A' :: (dumpItems xs ++ 'Z' :: rest) := by
          simp [dumpV]
        rw [heq]
        have hsz : lsize xs ≤ fuel := by simp [vsize] at h; omega
        simp [parseVal, ihL xs rest hsz]
      | .map fs =>
        have heq : dumpV (.map fs) ++ rest = 'O' :: (dumpFields fs ++ 'Q' :: rest) := by
          simp [dumpV]
        rw [heq]
        have hsz : fsize fs ≤ fuel := by simp [vsize] at h; omega
        simp [parseVal, ihF fs rest hsz]
    · intro xs rest h
      match xs with
      | [] => simp [dumpItems, parseItems]
      | x :: xs =>
        obtain ⟨c, cs, hdump, hc⟩ := dumpV_head x
        have hsx : vsize x ≤ fuel := by simp [lsize] at h; omega
        have hsxs : lsize xs ≤ fuel := by simp [lsize] at h; omega
        have heq : dumpItems (x :: xs) ++ 'Z' :: rest =
            c :: (cs ++ (dumpItems xs ++ 'Z' :: rest)) := by
          simp [dumpItems, hdump]
        rw [heq]
        have hcz : c ≠ 'Z' := by rcases hc with h1 | h1 | h1 | h1 | h1 <;> simp [h1]
        have hval : parseVal fuel (c :: (cs ++ (dumpItems xs ++ 'Z' :: rest))) =
            some (x, dumpItems xs ++ 'Z' :: rest) := by
          have : c :: (cs ++ (dumpItems xs ++ 'Z' :: rest)) =
              dumpV x ++ (dumpItems xs ++ 'Z' :: rest) := by simp [hdump]
          rw [this]
          exact ihV x _ hsx
        simp [parseItems, hcz, hval, ihL xs rest hsxs]
    · intro fs rest h
      match fs with
      | [] => simp [dumpFields, parseFlds]
      | (k, v) :: fs =>
        have hsv : vsize v ≤ fuel := by simp [fsize] at h; omega
        have hsfs : fsize fs ≤ fuel := by simp [fsize] at h; omega
        have heq : dumpFields ((k, v) :: fs) ++ 'Q' :: rest =
            'F' :: (starRun k.data.length ++
              '|' :: (k.data ++ (dumpV v ++ (dumpFields fs ++ 'Q' :: rest)))) := by
          simp [dumpFields]
        rw [heq]
        have hval : parseVal fuel (dumpV v ++ (dumpFields fs ++ 'Q' :: rest)) =
            some (v, dumpFields fs ++ 'Q' :: rest) := ihV v _ hsv
        have hpc := parseChunk_spec k.data (dumpV v ++ (dumpFields fs ++ 'Q' :: rest))
        simp only [parseFlds]
        rw [if_neg (by decide)]
        simp only [eq_self_iff_true, if_true]
        rw [hpc]
        simp [hval, ihF fs rest hsfs, string_mk_data]

theorem dumpV_length_pos (v : Value) : 1 ≤ (dumpV v).length := by
  obtain ⟨c, cs, h, _⟩ := dumpV_head v
  simp [h]

mutual
theorem vsize_le_dumpV : ∀ v, vsize v ≤ (dumpV v).length
  | .str s => by simp [vsize, dumpV]
  | .num i => by
      by_cases hi : 0 ≤ i <;> simp [vsize, dumpV, hi]
  | .seq xs => by
      have := lsize_le_dumpItems xs
      simp only [vsize, dumpV]
      simp
      omega
  | .map fs => by
      have := fsize_le_dumpFields fs
      simp only [vsize, dumpV]
      simp
      omega
theorem lsize_le_dumpItems : ∀ xs, lsize xs ≤ (dumpItems xs).length + 1
  | [] => by simp [lsize, dumpItems]
  | x :: xs => by
      have h1 := vsize_le_dumpV x
      have h2 := lsize_le_dumpItems xs
      have h3 := dumpV_length_pos x
      simp only [lsize, dumpItems]
      simp
      omega
theorem fsize_le_dumpFields : ∀ fs, fsize fs ≤ (dumpFields fs).length + 1
  | [] => by simp [fsize, dumpFields]
  | (k, v) :: fs => by
      have h1 := vsize_le_dumpV v
      have h2 := fsize_le_dumpFields fs
      simp only [fsize, dumpFields]
      simp
      omega
end

/-- Modelled from the spec: js-yaml `safeDump` — serialize a value to
text. -/
def yamlDump (v : Value) : String := String.mk (dumpV v)

/-- Modelled from the spec: js-yaml `safeLoad` — parse text into a value or
fail with a non-empty exception message. -/
def yamlLoad (t : String) : Except String Value :=
  match parseVal (t.data.length + 1) t.data with
  | some (v, []) => .ok v
  | some (_, _ :: _) => .error "YAMLException: end of the stream expected"
  | none => .error "YAMLException: unexpected token"

theorem yamlLoad_yamlDump (v : Value) : yamlLoad (yamlDump v) = .ok v := by
  have hsz : vsize v ≤ (dumpV v).length + 1 :=
    le_trans (vsize_le_dumpV v) (by omega)
  have h := (parse_dump ((dumpV v).length + 1)).1 v [] hsz
  simp only [List.append_nil] at h
  simp [yamlLoad, yamlDump, h]

/-! ## DockerInfo (docker-info.js) -/

/-- First-character class of the capture group of SECRET_PATTERN:
`[a-zA-Z_]`. -/
def isIdentStart (c : Char) : Bool :=
  ('a'.toNat ≤ c.toNat && c.toNat ≤ 'z'.toNat) ||
  ('A'.toNat ≤ c.toNat && c.toNat ≤ 'Z'.toNat) || c = '_'

/-- Continuation class of the capture group: `[a-zA-Z0-9_]`. -/
def isIdentChar (c : Char) : Bool :=
  isIdentStart c || ('0'.toNat ≤ c.toNat && c.toNat ≤ '9'.toNat)

/-- What the regex metacharacter `.` matches (no `s` flag): any character
except a line terminator. -/
def regexAnyChar (c : Char) : Bool :=
  c ≠ '\n' && c ≠ '\r' && c ≠ ' ' && c ≠ ' '

/-- `SECRET_PATTERN.exec` for
`SECRET_PATTERN = /^<% \$secrets.([a-zA-Z_][a-zA-Z0-9_]*) %>/`
(docker-info.js line 29): anchored at the start; after the literal
`<% $secrets` the unescaped `.` matches any single non-line-terminator
character; then the captured identifier (greedy, which is unambiguous
because a space never belongs to the identifier class); then the literal
` %>`.  Returns the captured identifier; input after the match is ignored
(the pattern is not end-anchored). -/
def secretPatternExec (s : String) : Option String :=
  match s.data with
  | c0 :: c1 :: c2 :: c3 :: c4 :: c5 :: c6 :: c7 :: c8 :: c9 :: c10 :: w :: d :: cs =>
    if c0 = '<' ∧ c1 = '%' ∧ c2 = ' ' ∧ c3 = '$' ∧ c4 = 's' ∧ c5 = 'e' ∧ c6 = 'c'
        ∧ c7 = 'r' ∧ c8 = 'e' ∧ c9 = 't' ∧ c10 = 's'
        ∧ regexAnyChar w = true ∧ isIdentStart d = true then
      match cs.drop (cs.takeWhile isIdentChar).length with
      | e0 :: e1 :: e2 :: _ =>
        if e0 = ' ' ∧ e1 = '%' ∧ e2 = '>' then some (String.mk (d :: cs.takeWhile isIdentChar))
        else none
      | _ => none
    else none
  | _ => none

/-- The out-of-scope global `name` read by the DockerInfo constructor:
`this.name = name || ''` destructures no `name` from props, so the
browser global `window.name` is read (spec §9 flags this as a defect);
modelled as the empty string, its default value. -/
def windowName : String := ""

/-- A DockerInfo instance (docker-info.js).  `updateTime` is `Date.now()`,
modelled as 0 (informational only, not persisted). -/
structure DockerInfo where
  uri : Value
  auth : Obj
  updateTime : Nat
  secretRef : Value
  name : String
deriving Repr, DecidableEq

/-- The `auth` property of a raw prerequisite as an object; a non-object
`auth` contributes no fields (such values never reach the spread in
`fromProtocol`, which only spreads the object case). -/
def authObjOf (p : Obj) : Obj :=
  match assocGet p "auth" with
  | some (Value.map fs) => fs
  | _ => []

/-- The DockerInfo constructor (docker-info.js lines 31-39): destructures
`uri`, `auth`, `secretRef` from props; `uri = uri || ''`,
`auth = auth || {}` (the `auth` passed by `fromProtocol` is always an
object, which is truthy), `secretRef = !isEmpty(secretRef) ? secretRef :
''`, `name = name || ''` (the out-of-scope global). -/
def DockerInfo.construct (props : Obj) : DockerInfo :=
  { uri :=
      match assocGet props "uri" with
      | some v => if jsTruthy v then v else .str ""
      | none => .str ""
    auth :=
      match assocGet props "auth" with
      | some (Value.map fs) => fs
      | _ => []
    updateTime := 0
    secretRef :=
      match assocGet props "secretRef" with
      | some v => if lodashIsEmpty v then .str "" else v
      | none => .str ""
    name := if windowName ≠ "" then windowName else "" }

/-- `DockerInfo.fromProtocol(dockerInfoProtocol, secrets)` (docker-info.js
lines 41-54): read `auth.password` (lodash get, default `''`); run
SECRET_PATTERN over its string coercion; when the captured key is
non-empty and present in `secrets`, resolve the password to the secret's
value, keeping `secretRef` as the whole password; otherwise collapse auth
to `{}` and clear `secretRef`.  (The `isNil(secretRef)` guard is always
passed: the modelled values contain no null/undefined.) -/
def DockerInfo.fromProtocol (dockerInfoProtocol : Obj) (secrets : Obj) : DockerInfo :=
  let secretRef := lodashGet2 dockerInfoProtocol "auth" "password" (.str "")
  let secretKey : String :=
    match secretPatternExec (jsToStr secretRef) with
    | some k => k
    | none => ""
  let found : Option Value :=
    if secretKey = "" then none else assocGet secrets secretKey
  match found with
  | some sv =>
      DockerInfo.construct
        (assocSet
          (assocSet dockerInfoProtocol "auth"
            (.map (assocSet (authObjOf dockerInfoProtocol) "password" sv)))
          "secretRef" secretRef)
  | none =>
      DockerInfo.construct
        (assocSet (assocSet dockerInfoProtocol "auth" (.map []))
          "secretRef" (.str ""))

/-- `DockerInfo.convertToProtocolFormat()` (docker-info.js lines 56-67):
copy auth, overwrite its password with `secretRef` when `secretRef` is
non-empty, and return the pruned
`{type: 'dockerimage', auth, uri, name}` object. -/
def DockerInfo.convertToProtocolFormat (d : DockerInfo) : Obj :=
  let prunedAuth :=
    if lodashIsEmpty d.secretRef then d.auth
    else assocSet d.auth "password" d.secretRef
  removeEmptyProperties
    [("type", .str "dockerimage"), ("auth", .map prunedAuth),
     ("uri", d.uri), ("name", .str d.name)]

/-! ## JobProtocol (job-protocol.js) -/

/-- JavaScript `x || dflt` applied to a destructured property of `props`:
the property's value when present and truthy, else the default. -/
def jsOrD (props : Obj) (k : String) (dflt : Value) : Value :=
  match assocGet props k with
  | some v => if jsTruthy v then v else dflt
  | none => dflt

/-- The JobProtocol constructor (job-protocol.js lines 33-49): destructures
the recognized fields from props and assigns, in source order, each field
the supplied value or its type-appropriate default via `||`;
`protocolVersion` is fixed to 2 and `type` to 'job'. -/
def JobProtocol.construct (props : Obj) : Obj :=
  [("protocolVersion", Value.num 2),
   ("name", jsOrD props "name" (.str "")),
   ("description", jsOrD props "description" (.str "")),
   ("contributor", jsOrD props "contributor" (.str "")),
   ("type", Value.str "job"),
   ("jobRetryCount", jsOrD props "jobRetryCount" (.num 0)),
   ("prerequisites", jsOrD props "prerequisites" (.seq [])),
   ("parameters", jsOrD props "parameters" (.map [])),
   ("taskRoles", jsOrD props "taskRoles" (.map [])),
   ("deployments", jsOrD props "deployments" (.map [])),
   ("secrets", jsOrD props "secrets" (.map [])),
   ("defaults", jsOrD props "defaults" (.map [])),
   ("extras", jsOrD props "extras" (.map []))]

/-- Destructuring source for the constructor: a parsed mapping supplies its
fields; destructuring any other value yields `undefined` for every
recognized property. -/
def asPropsObj : Value → Obj
  | .map fs => fs
  | _ => []

/-- `JobProtocol.fromYaml(protocolYaml)` (job-protocol.js lines 51-59):
parse the text and build a new JobProtocol from it; on a parse failure the
error is alerted and no document is produced (modelled as `none`). -/
def JobProtocol.fromYaml (protocolYaml : String) : Option Obj :=
  match yamlLoad protocolYaml with
  | .ok jobProtocol => some (JobProtocol.construct (asPropsObj jobProtocol))
  | .error _ => none

/-- Modelled from the spec: the Joi schema `jobProtocolSchema` from
protocol-schema.js (absent from src/).  Spec §4.1/§6: a schema validator
checking the parsed document against the recognized document shape and
returning error-or-none; error strings are non-empty human-readable text.
The model requires the document to be a mapping with a numeric
`protocolVersion` and, when present, a string `name`. -/
def jobProtocolSchemaCheck : Value → Option String
  | .map fs =>
    (match assocGet fs "protocolVersion" with
     | some (.num _) =>
       (match assocGet fs "name" with
        | some (.str _) => none
        | some _ => some "ValidationError: name must be a string"
        | none => none)
     | some _ => some "ValidationError: protocolVersion must be a number"
     | none => some "ValidationError: protocolVersion is required")
  | _ => some "ValidationError: value must be an object"

/-- `JobProtocol.validateFromYaml(protocolYaml)` (job-protocol.js lines
61-69): parse, then validate against the schema; returns
`String(result.error || '')` on the normal path and `String(err.message)`
when parsing throws. -/
def JobProtocol.validateFromYaml (protocolYaml : String) : String :=
  match yamlLoad protocolYaml with
  | .error err => err
  | .ok protocol =>
    match jobProtocolSchemaCheck protocol with
    | some e => e
    | none => ""

/-- Modelled from the spec: one ordered key/value edit row passed from the
parameter and secret editors (both are string-valued text fields). -/
structure KeyValue where
  key : String
  value : String
deriving Repr, DecidableEq

/-- Modelled from the spec (§6): the task-role abstraction consumed by
`getUpdatedProtocol`, exposing `name`, `getDockerPrerequisite()`,
`getDeployment()` and `convertToProtocolFormat()` (the last returns the
role's contribution to the task-role mapping). -/
structure TaskRole where
  name : String
  dockerPrerequisite : Value
  deployment : Value
  protocolFormat : Obj
deriving Repr

/-- Modelled from the spec (§6): the basic-info abstraction exposing
`getDefaults()` and `convertToProtocolFormat()`. -/
structure JobBasicInfo where
  defaults : Obj
  protocolFormat : Obj
deriving Repr

/-- The `name` property of a prerequisite value, the key used by the
dedup Map (`undefined`, i.e. `none`, for a non-object or a missing
name). -/
def nameKey : Value → Option Value
  | .map fs => assocGet fs "name"
  | _ => none

/-- `JobProtocol._getTaskRolesPrerequisites(jobTaskRoles)` (job-protocol.js
lines 106-111): collect each task role's docker prerequisite into a Map
keyed by `value.name` (`set` overwrites the value at the first-seen
position) and return `Array.from(map.values())`. -/
def JobProtocol.getTaskRolesPrerequisites (jobTaskRoles : List TaskRole) : List Value :=
  let prerequisites := jobTaskRoles.map (fun taskRole => taskRole.dockerPrerequisite)
  (prerequisites.foldl (fun m v => assocSet m (nameKey v) v) []).map (fun e => e.2)

/-- `JobProtocol._updateAndConvertTaskRoles(jobTaskRoles)` (job-protocol.js
lines 113-119): merge the roles' protocol-format objects into one mapping
via keyValueArrayReducer. -/
def JobProtocol.updateAndConvertTaskRoles (jobTaskRoles : List TaskRole) : Obj :=
  (jobTaskRoles.map (fun taskRole => taskRole.protocolFormat)).foldl keyValueArrayReducer []

/-- `JobProtocol._generateDeployments(jobTaskRoles)` (job-protocol.js lines
121-128): build `{roleName: deployment}` singletons, merge them, prune
empties. -/
def JobProtocol.generateDeployments (jobTaskRoles : List TaskRole) : Obj :=
  removeEmptyProperties
    ((jobTaskRoles.map (fun taskRole => [(taskRole.name, taskRole.deployment)])).foldl
      keyValueArrayReducer [])

/-- `JobProtocol.getUpdatedProtocol(jobBasicInfo, jobTaskRoles,
jobParameters, jobSecrets)` (job-protocol.js lines 71-104), with `self` the
current document (`this`): fold the parameter edits into a pruned mapping,
wrap the generated deployments under the configured deployment name
(source spelling `delpoyName`), dedup the prerequisites, merge the task
roles, fold the secret edits, prune the defaults, and construct a new
JobProtocol layering the computed fields over `{...this,
...jobBasicInfo.convertToProtocolFormat()}`. -/
def JobProtocol.getUpdatedProtocol (self : Obj) (jobBasicInfo : JobBasicInfo)
    (jobTaskRoles : List TaskRole) (jobParameters jobSecrets : List KeyValue) : Obj :=
  let parameters := removeEmptyProperties
    ((jobParameters.map (fun p => [(p.key, Value.str p.value)])).foldl keyValueArrayReducer [])
  let deployments0 := JobProtocol.generateDeployments jobTaskRoles
  let delpoyName := lodashGet2 self "defaults" "deployment" (.str "defaultDeployment")
  let deployments : Value :=
    if deployments0.isEmpty then .seq []
    else .seq [.map [("name", delpoyName), ("taskRoles", .map deployments0)]]
  let prerequisites := JobProtocol.getTaskRolesPrerequisites jobTaskRoles
  let taskRoles := JobProtocol.updateAndConvertTaskRoles jobTaskRoles
  let secrets := removeEmptyProperties
    ((jobSecrets.map (fun p => [(p.key, Value.str p.value)])).foldl keyValueArrayReducer [])
  let defaultsField := removeEmptyProperties jobBasicInfo.defaults
  JobProtocol.construct
    (mergeObj (mergeObj self jobBasicInfo.protocolFormat)
      [("parameters", .map parameters),
       ("taskRoles", .map taskRoles),
       ("prerequisites", .seq prerequisites),
       ("deployments", deployments),
       ("secrets", .map secrets),
       ("defaults", .map defaultsField)])

/-- `JobProtocol.toYaml()` (job-protocol.js lines 130-136):
`yaml.safeDump(removeEmptyProperties(this))`; the modelled serializer is
total, so the catch branch is unreachable. -/
def JobProtocol.toYaml (self : Obj) : String :=
  yamlDump (.map (removeEmptyProperties self))

/-! ## Association-list lemmas -/

theorem assocGet_of_not_mem {α β : Type} [DecidableEq α] (m : List (α × β)) (k : α)
    (h : m.any (fun e => e.1 = k) = false) : assocGet m k = none := by
  induction m with
  | nil => rfl
  | cons e m ih =>
    simp only [List.any_cons, Bool.or_eq_false_iff, decide_eq_false_iff_not] at h
    simp [assocGet, h.1, ih h.2]

theorem assocGet_map_ne {α β : Type} [DecidableEq α] (m : List (α × β)) (k : α) (v : β)
    (k2 : α) (h : k2 ≠ k) :
    assocGet (m.map (fun e => if e.1 = k then (k, v) else e)) k2 = assocGet m k2 := by
  induction m with
  | nil => rfl
  | cons e m ih =>
    rcases e with ⟨k1, v1⟩
    simp only [List.map_cons]
    by_cases he : k1 = k
    · rw [if_pos he]
      have h2 : ¬ (k = k2) := fun hh => h hh.symm
      have h3 : ¬ (k1 = k2) := by rw [he]; exact h2
      simp [assocGet, h2, h3, ih]
    · rw [if_neg he]
      by_cases h1 : k1 = k2 <;> simp [assocGet, h1, ih]

theorem assocGet_map_eq {α β : Type} [DecidableEq α] (m : List (α × β)) (k : α) (v : β)
    (h : m.any (fun e => e.1 = k) = true) :
    assocGet (m.map (fun e => if e.1 = k then (k, v) else e)) k = some v := by
  induction m with
  | nil => simp at h
  | cons e m ih =>
    rcases e with ⟨k1, v1⟩
    simp only [List.map_cons]
    by_cases he : k1 = k
    · rw [if_pos he]
      simp [assocGet]
    · rw [if_neg he]
      simp only [List.any_cons, Bool.or_eq_true, decide_eq_true_eq] at h
      rcases h with h | h
      · exact absurd h he
      · simp [assocGet, he, ih h]
theorem assocGet_append_single {α β : Type} [DecidableEq α] (m : List (α × β)) (k : α)
    (v : β) (k2 : α) :
    assocGet (m ++ [(k, v)]) k2 =
      match assocGet m k2 with
      | some w => some w
      | none => if k = k2 then some v else none := by
  induction m with
  | nil => simp [assocGet]
  | cons e m ih =>
    rcases e with ⟨k1, v1⟩
    by_cases h1 : k1 = k2 <;> simp [assocGet, h1, ih]

theorem assocGet_assocSet {α β : Type} [DecidableEq α] (m : List (α × β)) (k : α) (v : β)
    (k2 : α) :
    assocGet (assocSet m k v) k2 = if k2 = k then some v else assocGet m k2 := by
  unfold assocSet
  by_cases hmem : m.any (fun e => e.1 = k) = true
  · rw [if_pos hmem]
    by_cases hk : k2 = k
    · subst hk
      simp [assocGet_map_eq m k2 v hmem]
    · simp [assocGet_map_ne m k v k2 hk, hk]
  · rw [if_neg hmem, assocGet_append_single]
    have hfalse : m.any (fun e => e.1 = k) = false := by
      revert hmem
      cases m.any (fun e => e.1 = k) <;> simp
    by_cases hk : k2 = k
    · subst hk
      rw [assocGet_of_not_mem m k2 hfalse]
    · have hk2 : ¬ (k = k2) := fun hh => hk hh.symm
      cases hg : assocGet m k2 <;> simp [hk, hk2, hg]

theorem keys_map_set {α β : Type} [DecidableEq α] (m : List (α × β)) (k : α) (v : β) :
    (m.map (fun e => if e.1 = k then (k, v) else e)).map (fun e => e.1) =
      m.map (fun e => e.1) := by
  induction m with
  | nil => rfl
  | cons e m ih =>
    rcases e with ⟨k1, v1⟩
    simp only [List.map_cons]
    by_cases he : k1 = k
    · rw [if_pos he]
      simp [he, ih]
    · rw [if_neg he]
      simp [ih]

theorem keys_assocSet {α β : Type} [DecidableEq α] (m : List (α × β)) (k : α) (v : β) :
    (assocSet m k v).map (fun e => e.1) =
      if m.any (fun e => e.1 = k) = true then m.map (fun e => e.1)
      else m.map (fun e => e.1) ++ [k] := by
  unfold assocSet
  by_cases hmem : m.any (fun e => e.1 = k) = true
  · rw [if_pos hmem, if_pos hmem, keys_map_set]
  · rw [if_neg hmem, if_neg hmem]
    simp

/-! ## Keyed-fold lemmas (Map dedup and key/value merge) -/

/-- The distinct elements of a list in order of first appearance (the
order the spec claims for surviving dedup keys). -/
def firstOccurrences {α : Type} [DecidableEq α] : List α → List α
  | [] => []
  | a :: l => a :: (firstOccurrences l).filter (fun b => b ≠ a)

theorem mem_firstOccurrences {α : Type} [DecidableEq α] (l : List α) (x : α) :
    x ∈ firstOccurrences l ↔ x ∈ l := by
  induction l with
  | nil => simp [firstOccurrences]
  | cons a l ih =>
    simp only [firstOccurrences, List.mem_cons, List.mem_filter, ih, decide_eq_true_eq]
    constructor
    · rintro (h | ⟨h, _⟩) <;> simp [h]
    · rintro (h | h)
      · exact Or.inl h
      · by_cases hx : x = a
        · exact Or.inl hx
        · exact Or.inr ⟨h, by simpa using hx⟩

theorem nodup_firstOccurrences {α : Type} [DecidableEq α] (l : List α) :
    (firstOccurrences l).Nodup := by
  induction l with
  | nil => simp [firstOccurrences]
  | cons a l ih =>
    simp only [firstOccurrences, List.nodup_cons]
    refine ⟨fun hmem => ?_, ih.filter _⟩
    have := (List.mem_filter.mp hmem).2
    simp at this

theorem firstOccurrences_append {α : Type} [DecidableEq α] (l : List α) (k : α) :
    firstOccurrences (l ++ [k]) =
      if k ∈ l then firstOccurrences l else firstOccurrences l ++ [k] := by
  induction l with
  | nil => simp [firstOccurrences]
  | cons a l ih =>
    rw [List.cons_append,
      show firstOccurrences (a :: (l ++ [k])) =
        a :: (firstOccurrences (l ++ [k])).filter (fun b => b ≠ a) from rfl, ih]
    by_cases hk : k ∈ l
    · rw [if_pos hk, if_pos (List.mem_cons.mpr (Or.inr hk))]
      rfl
    · rw [if_neg hk]
      by_cases hka : k = a
      · subst hka
        rw [if_pos (List.mem_cons.mpr (Or.inl rfl)), List.filter_append]
        simp [firstOccurrences]
      · rw [if_neg (by simp [hka, hk]), List.filter_append]
        simp [firstOccurrences, hka]

/-- The accumulator fold shared by the Map-based prerequisite dedup and the
keyValueArrayReducer merges: insert-or-overwrite each element keyed by
`keyf`, mapped through `valf`, starting from empty. -/
def keyedFold {α β γ : Type} [DecidableEq α] (keyf : β → α) (valf : β → γ)
    (ps : List β) : List (α × γ) :=
  ps.foldl (fun m v => assocSet m (keyf v) (valf v)) []

theorem keyedFold_append {α β γ : Type} [DecidableEq α] (keyf : β → α) (valf : β → γ)
    (ps : List β) (v : β) :
    keyedFold keyf valf (ps ++ [v]) =
      assocSet (keyedFold keyf valf ps) (keyf v) (valf v) := by
  simp [keyedFold, List.foldl_append]

theorem any_key_iff {α β : Type} [DecidableEq α] (m : List (α × β)) (k : α) :
    m.any (fun e => e.1 = k) = true ↔ k ∈ m.map (fun e => e.1) := by
  simp [List.any_eq_true, List.mem_map]

theorem keys_keyedFold {α β γ : Type} [DecidableEq α] (keyf : β → α) (valf : β → γ)
    (ps : List β) :
    (keyedFold keyf valf ps).map (fun e => e.1) = firstOccurrences (ps.map keyf) := by
  induction ps using List.reverseRecOn with
  | nil => rfl
  | append_singleton l a ih =>
    rw [keyedFold_append, keys_assocSet, List.map_append, List.map_singleton,
      firstOccurrences_append]
    by_cases hmem : keyf a ∈ l.map keyf
    · have hany : (keyedFold keyf valf l).any (fun e => e.1 = keyf a) = true :=
        (any_key_iff (keyedFold keyf valf l) (keyf a)).mpr
          (by rw [ih, mem_firstOccurrences]; exact hmem)
      rw [if_pos hany, if_pos hmem, ih]
    · have hany : ¬ (keyedFold keyf valf l).any (fun e => e.1 = keyf a) = true := by
        intro hc
        have := (any_key_iff (keyedFold keyf valf l) (keyf a)).mp hc
        rw [ih, mem_firstOccurrences] at this
        exact hmem this
      rw [if_neg hany, if_neg hmem, ih]

theorem assocGet_keyedFold {α β γ : Type} [DecidableEq α] (keyf : β → α) (valf : β → γ)
    (ps : List β) (k : α) :
    assocGet (keyedFold keyf valf ps) k =
      (ps.reverse.find? (fun v => keyf v = k)).map valf := by
  induction ps using List.reverseRecOn with
  | nil => rfl
  | append_singleton l a ih =>
    rw [keyedFold_append, assocGet_assocSet, List.reverse_append]
    by_cases hk : k = keyf a
    · rw [if_pos hk]
      have hd : (decide (keyf a = k)) = true := by simp [hk]
      simp [List.find?, hd]
    · rw [if_neg hk, ih]
      have hd : (decide (keyf a = k)) = false := by
        simp only [decide_eq_false_iff_not]
        intro h
        exact hk h.symm
      simp [List.find?, hd]

theorem mem_assocSet {α β : Type} [DecidableEq α] (m : List (α × β)) (k : α) (v : β)
    (e : α × β) (h : e ∈ assocSet m k v) : e ∈ m ∨ e = (k, v) := by
  unfold assocSet at h
  by_cases hmem : m.any (fun e => e.1 = k) = true
  · rw [if_pos hmem] at h
    obtain ⟨e0, he0, heq⟩ := List.mem_map.mp h
    by_cases h0 : e0.1 = k
    · rw [if_pos h0] at heq
      exact Or.inr heq.symm
    · rw [if_neg h0] at heq
      exact Or.inl (heq ▸ he0)
  · rw [if_neg hmem] at h
    rcases List.mem_append.mp h with h | h
    · exact Or.inl h
    · exact Or.inr (List.mem_singleton.mp h)

theorem mem_keyedFold {α β γ : Type} [DecidableEq α] (keyf : β → α) (valf : β → γ)
    (ps : List β) (e : α × γ) (h : e ∈ keyedFold keyf valf ps) :
    ∃ b, e = (keyf b, valf b) := by
  induction ps using List.reverseRecOn with
  | nil => simp [keyedFold] at h
  | append_singleton l a ih =>
    rw [keyedFold_append] at h
    rcases mem_assocSet _ _ _ _ h with h | h
    · exact ih h
    · exact ⟨a, h⟩

theorem assocGet_of_mem_nodup {α β : Type} [DecidableEq α] (m : List (α × β))
    (hnd : (m.map (fun e => e.1)).Nodup) (e : α × β) (h : e ∈ m) :
    assocGet m e.1 = some e.2 := by
  induction m with
  | nil => simp at h
  | cons e2 m ih =>
    simp only [List.map_cons, List.nodup_cons] at hnd
    rcases List.mem_cons.mp h with h | h
    · subst h
      simp [assocGet]
    · have hne : e2.1 ≠ e.1 := by
        intro hc
        exact hnd.1 (hc ▸ List.mem_map.mpr ⟨e, h, rfl⟩)
      simp [assocGet, hne, ih hnd.2 h]

/-! ## Support lemmas for the claims -/

theorem assocGet_pruneFields_none (m : Obj) (k : String) (h : assocGet m k = none) :
    assocGet (pruneFields m) k = none := by
  induction m with
  | nil => rfl
  | cons e m ih =>
    rcases e with ⟨k1, v1⟩
    simp only [assocGet] at h
    by_cases h1 : k1 = k
    · simp [h1] at h
    · simp only [if_neg h1] at h
      simp only [pruneFields]
      split
      · exact ih h
      · simp [assocGet, h1, ih h]

theorem assocGet_pruneFields (m : Obj) (hnd : (m.map (fun e => e.1)).Nodup) (k : String) :
    assocGet (pruneFields m) k =
      match assocGet m k with
      | some v => if isEmptyValue (pruneValue v) then none else some (pruneValue v)
      | none => none := by
  induction m with
  | nil => rfl
  | cons e m ih =>
    rcases e with ⟨k1, v1⟩
    simp only [List.map_cons, List.nodup_cons] at hnd
    by_cases h1 : k1 = k
    · subst h1
      have hnone : assocGet m k1 = none := by
        rw [assocGet_of_not_mem]
        revert hnd
        cases hx : m.any (fun e => e.1 = k1)
        · simp
        · intro hnd
          exact absurd ((any_key_iff _ _).mp hx) hnd.1
      have hrhs : assocGet ((k1, v1) :: m) k1 = some v1 := by simp [assocGet]
      rw [hrhs]
      simp only [pruneFields]
      split
      · rw [assocGet_pruneFields_none m k1 hnone]
      · rename_i hemp
        simp [assocGet, hemp]
    · have hrhs : assocGet ((k1, v1) :: m) k = assocGet m k := by simp [assocGet, h1]
      rw [hrhs]
      simp only [pruneFields]
      split
      · exact ih hnd.2
      · simp [assocGet, h1, ih hnd.2]

theorem kv_fold_eq (edits : List KeyValue) :
    (edits.map (fun p => [(p.key, Value.str p.value)])).foldl keyValueArrayReducer [] =
      keyedFold (fun p => p.key) (fun p => Value.str p.value) edits := by
  rw [List.foldl_map]
  rfl

theorem jsOrD_idem_val (p : Obj) (k : String) (d : Value) :
    (if jsTruthy (jsOrD p k d) = true then jsOrD p k d else d) = jsOrD p k d := by
  unfold jsOrD
  cases hg : assocGet p k with
  | none => split <;> rfl
  | some v =>
    by_cases hv : jsTruthy v = true
    · simp [hv]
    · simp only [Bool.not_eq_true] at hv
      simp [hv]

theorem jsOrD_of_get (X : Obj) (k : String) (d w : Value)
    (hk : assocGet X k = some w) (hw : (if jsTruthy w = true then w else d) = w) :
    jsOrD X k d = w := by
  unfold jsOrD
  rw [hk]
  exact hw

theorem construct_congr (p q : Obj)
    (h1 : jsOrD p "name" (.str "") = jsOrD q "name" (.str ""))
    (h2 : jsOrD p "description" (.str "") = jsOrD q "description" (.str ""))
    (h3 : jsOrD p "contributor" (.str "") = jsOrD q "contributor" (.str ""))
    (h4 : jsOrD p "jobRetryCount" (.num 0) = jsOrD q "jobRetryCount" (.num 0))
    (h5 : jsOrD p "prerequisites" (.seq []) = jsOrD q "prerequisites" (.seq []))
    (h6 : jsOrD p "parameters" (.map []) = jsOrD q "parameters" (.map []))
    (h7 : jsOrD p "taskRoles" (.map []) = jsOrD q "taskRoles" (.map []))
    (h8 : jsOrD p "deployments" (.map []) = jsOrD q "deployments" (.map []))
    (h9 : jsOrD p "secrets" (.map []) = jsOrD q "secrets" (.map []))
    (h10 : jsOrD p "defaults" (.map []) = jsOrD q "defaults" (.map []))
    (h11 : jsOrD p "extras" (.map []) = jsOrD q "extras" (.map [])) :
    JobProtocol.construct p = JobProtocol.construct q := by
  simp [JobProtocol.construct, h1, h2, h3, h4, h5, h6, h7, h8, h9, h10, h11]

theorem construct_idem (p : Obj) :
    JobProtocol.construct (JobProtocol.construct p) = JobProtocol.construct p := by
  refine construct_congr _ _ ?_ ?_ ?_ ?_ ?_ ?_ ?_ ?_ ?_ ?_ ?_ <;>
    exact jsOrD_of_get _ _ _ _ (by simp [JobProtocol.construct, assocGet])
      (jsOrD_idem_val p _ _)

theorem yamlLoad_error_ne (t : String) (e : String) (h : yamlLoad t = .error e) :
    e ≠ "" := by
  unfold yamlLoad at h
  split at h
  · exact absurd h (by simp)
  · intro hc
    rw [hc] at h
    simp at h
  · intro hc
    rw [hc] at h
    simp at h

theorem schemaCheck_error_ne (v : Value) (e : String) (h : jobProtocolSchemaCheck v = some e) :
    e ≠ "" := by
  unfold jobProtocolSchemaCheck at h
  split at h
  · split at h
    · split at h
      · exact absurd h (by simp)
      · intro hc
        rw [hc] at h
        simp at h
      · exact absurd h (by simp)
    · intro hc
      rw [hc] at h
      simp at h
    · intro hc
      rw [hc] at h
      simp at h
  · intro hc
    rw [hc] at h
    simp at h

theorem secretPatternExec_ne_empty (s : String) (k : String)
    (h : secretPatternExec s = some k) : k ≠ "" := by
  unfold secretPatternExec at h
  split at h
  · split at h
    · split at h
      · split at h
        · injection h with h2
          intro hc
          rw [hc] at h2
          have := congrArg String.data h2
          simp at this
        · exact absurd h (by simp)
      · exact absurd h (by simp)
    · exact absurd h (by simp)
  · exact absurd h (by simp)

/-! ## Claim theorems -/

/-- C8: the JobProtocol constructor never fails and produces a document in
which every recognized field is defined; absent name/description/contributor
default to the empty string, absent jobRetryCount to 0, absent
prerequisites to the empty sequence, and absent
parameters/taskRoles/deployments/secrets/defaults/extras to the empty
mapping.  (The embedded constructor is a total function, so "never fails"
holds by construction.) -/
theorem c8_construct_defaults (props : Obj) :
    ((assocGet (JobProtocol.construct props) "protocolVersion").isSome ∧
     (assocGet (JobProtocol.construct props) "name").isSome ∧
     (assocGet (JobProtocol.construct props) "description").isSome ∧
     (assocGet (JobProtocol.construct props) "contributor").isSome ∧
     (assocGet (JobProtocol.construct props) "type").isSome ∧
     (assocGet (JobProtocol.construct props) "jobRetryCount").isSome ∧
     (assocGet (JobProtocol.construct props) "prerequisites").isSome ∧
     (assocGet (JobProtocol.construct props) "parameters").isSome ∧
     (assocGet (JobProtocol.construct props) "taskRoles").isSome ∧
     (assocGet (JobProtocol.construct props) "deployments").isSome ∧
     (assocGet (JobProtocol.construct props) "secrets").isSome ∧
     (assocGet (JobProtocol.construct props) "defaults").isSome ∧
     (assocGet (JobProtocol.construct props) "extras").isSome) ∧
    ((assocGet props "name" = none →
       assocGet (JobProtocol.construct props) "name" = some (Value.str "")) ∧
     (assocGet props "description" = none →
       assocGet (JobProtocol.construct props) "description" = some (Value.str "")) ∧
     (assocGet props "contributor" = none →
       assocGet (JobProtocol.construct props) "contributor" = some (Value.str "")) ∧
     (assocGet props "jobRetryCount" = none →
       assocGet (JobProtocol.construct props) "jobRetryCount" = some (Value.num 0)) ∧
     (assocGet props "prerequisites" = none →
       assocGet (JobProtocol.construct props) "prerequisites" = some (Value.seq [])) ∧
     (assocGet props "parameters" = none →
       assocGet (JobProtocol.construct props) "parameters" = some (Value.map [])) ∧
     (assocGet props "taskRoles" = none →
       assocGet (JobProtocol.construct props) "taskRoles" = some (Value.map [])) ∧
     (assocGet props "deployments" = none →
       assocGet (JobProtocol.construct props) "deployments" = some (Value.map [])) ∧
     (assocGet props "secrets" = none →
       assocGet (JobProtocol.construct props) "secrets" = some (Value.map [])) ∧
     (assocGet props "defaults" = none →
       assocGet (JobProtocol.construct props) "defaults" = some (Value.map [])) ∧
     (assocGet props "extras" = none →
       assocGet (JobProtocol.construct props) "extras" = some (Value.map []))) := by
  refine ⟨⟨?_, ?_, ?_, ?_, ?_, ?_, ?_, ?_, ?_, ?_, ?_, ?_, ?_⟩,
    ?_, ?_, ?_, ?_, ?_, ?_, ?_, ?_, ?_, ?_, ?_⟩
  all_goals first
    | (intro h; simp [JobProtocol.construct, assocGet, jsOrD, h])
    | simp [JobProtocol.construct, assocGet]

/-- Witness for C8 at concrete input: the empty field bundle gets the
default name. -/
theorem c8_witness :
    assocGet ([] : Obj) "name" = none ∧
    assocGet (JobProtocol.construct []) "name" = some (Value.str "") :=
  ⟨rfl, (c8_construct_defaults []).2.1 rfl⟩

/-- C10: every constructed document has protocolVersion 2 and type "job",
regardless of the supplied fields; hence so do the documents produced by
fromYaml and getUpdatedProtocol. -/
theorem c10_fixed_version_and_type :
    (∀ props, assocGet (JobProtocol.construct props) "protocolVersion" = some (Value.num 2) ∧
       assocGet (JobProtocol.construct props) "type" = some (Value.str "job")) ∧
    (∀ t v, JobProtocol.fromYaml t = some v →
       assocGet v "protocolVersion" = some (Value.num 2) ∧
       assocGet v "type" = some (Value.str "job")) ∧
    (∀ self bi roles ps ss,
       assocGet (JobProtocol.getUpdatedProtocol self bi roles ps ss) "protocolVersion" =
         some (Value.num 2) ∧
       assocGet (JobProtocol.getUpdatedProtocol self bi roles ps ss) "type" =
         some (Value.str "job")) := by
  have hc : ∀ props, assocGet (JobProtocol.construct props) "protocolVersion" =
      some (Value.num 2) ∧
      assocGet (JobProtocol.construct props) "type" = some (Value.str "job") :=
    fun props => ⟨by simp [JobProtocol.construct, assocGet],
      by simp [JobProtocol.construct, assocGet]⟩
  refine ⟨hc, ?_, ?_⟩
  · intro t v h
    unfold JobProtocol.fromYaml at h
    split at h
    · injection h with h2
      exact h2 ▸ hc _
    · exact absurd h (by simp)
  · intro self bi roles ps ss
    exact hc _

/-- Witness for C10 at concrete input: parsing a dumped empty mapping. -/
theorem c10_witness :
    JobProtocol.fromYaml (yamlDump (Value.map [])) = some (JobProtocol.construct []) ∧
    assocGet (JobProtocol.construct []) "protocolVersion" = some (Value.num 2) ∧
    assocGet (JobProtocol.construct []) "type" = some (Value.str "job") :=
  ⟨by rfl, c10_fixed_version_and_type.2.1 (yamlDump (Value.map []))
    (JobProtocol.construct []) (by rfl)⟩

/-- C3: a raw prerequisite whose auth.password does not match the secret
pattern, or whose captured key is absent from the secret mapping, yields a
Reference with empty auth and empty secretRef; fromProtocol is total, so
no failure value is ever produced. -/
theorem c3_dangling_reference (p secrets : Obj)
    (h : ∀ k, secretPatternExec (jsToStr (lodashGet2 p "auth" "password" (.str ""))) = some k →
      assocGet secrets k = none) :
    (DockerInfo.fromProtocol p secrets).auth = [] ∧
    (DockerInfo.fromProtocol p secrets).secretRef = Value.str "" := by
  unfold DockerInfo.fromProtocol
  cases hx : secretPatternExec (jsToStr (lodashGet2 p "auth" "password" (.str ""))) with
  | none =>
    simp only [hx]
    constructor
    · simp [DockerInfo.construct, assocGet_assocSet]
    · simp [DockerInfo.construct, assocGet_assocSet, lodashIsEmpty]
  | some k =>
    have hk : ¬ (k = "") := secretPatternExec_ne_empty _ k hx
    have habs := h k hx
    simp only [hx, hk, if_neg hk, habs]
    constructor
    · simp [DockerInfo.construct, assocGet_assocSet]
    · simp [DockerInfo.construct, assocGet_assocSet, lodashIsEmpty]

/-- Witness for C3 at concrete input: the dangling reference of the spec
example (secret mapping empty). -/
theorem c3_witness :
    (∀ k, secretPatternExec (jsToStr (lodashGet2
        [("auth", Value.map [("password", Value.str "<% $secrets.k1 %>")])]
        "auth" "password" (.str ""))) = some k → assocGet ([] : Obj) k = none) ∧
    (DockerInfo.fromProtocol [("auth", Value.map [("password", Value.str "<% $secrets.k1 %>")])]
        ([] : Obj)).auth = [] ∧
    (DockerInfo.fromProtocol [("auth", Value.map [("password", Value.str "<% $secrets.k1 %>")])]
        ([] : Obj)).secretRef = Value.str "" :=
  ⟨fun _ _ => rfl,
   c3_dangling_reference _ _ (fun _ _ => rfl)⟩

/-- C1 counterexample: in the spec's secret-resolution example the
resulting Reference's secretRef is not the bare key name "k1" (the code
keeps the whole reference token). -/
theorem c1_counterexample :
    (DockerInfo.fromProtocol [("auth", Value.map [("password", Value.str "<% $secrets.k1 %>")])]
        [("k1", Value.str "hunter2")]).secretRef ≠ Value.str "k1" := by
  decide

/-- C1 amended: for the raw form with password "<% $secrets.k1 %>" and
mapping k1 ↦ hunter2, fromProtocol resolves auth.password to "hunter2" and
keeps secretRef equal to the whole reference token "<% $secrets.k1 %>"
(not the bare key name); convertToProtocolFormat then emits auth.password
as the reference token, never the literal secret. -/
theorem c1_secret_resolution_amended :
    (DockerInfo.fromProtocol [("auth", Value.map [("password", Value.str "<% $secrets.k1 %>")])]
        [("k1", Value.str "hunter2")]).auth = [("password", Value.str "hunter2")] ∧
    (DockerInfo.fromProtocol [("auth", Value.map [("password", Value.str "<% $secrets.k1 %>")])]
        [("k1", Value.str "hunter2")]).secretRef = Value.str "<% $secrets.k1 %>" ∧
    assocGet (DockerInfo.convertToProtocolFormat
        (DockerInfo.fromProtocol [("auth", Value.map [("password", Value.str "<% $secrets.k1 %>")])]
          [("k1", Value.str "hunter2")])) "auth" =
      some (Value.map [("password", Value.str "<% $secrets.k1 %>")]) := by
  refine ⟨by decide, by decide, by decide⟩

/-- C7: validateFromYaml returns the empty string iff both parsing and
schema validation succeed; any parse or schema error is returned as a
non-empty string (the embedded function is total, so the operation itself
never fails); in particular validating "not: [valid" yields a non-empty
error string. -/
theorem c7_validate_error_string (t : String) :
    (JobProtocol.validateFromYaml t = "" ↔
      ∃ v, yamlLoad t = .ok v ∧ jobProtocolSchemaCheck v = none) ∧
    JobProtocol.validateFromYaml "not: [valid" ≠ "" := by
  constructor
  · unfold JobProtocol.validateFromYaml
    cases hl : yamlLoad t with
    | error e =>
      have hne := yamlLoad_error_ne t e hl
      simp [hne]
    | ok v =>
      cases hs : jobProtocolSchemaCheck v with
      | none => simp [hs]
      | some e =>
        have hne := schemaCheck_error_ne v e hs
        simp [hs, hne]
  · decide

/-- C6: for every document, the serialized text parses back to a value in
which no object field is an empty string, empty mapping or empty sequence:
toYaml prunes all empty-prunable fields recursively before emission. -/
theorem c6_serialize_prunes_empty (self : Obj) :
    yamlLoad (JobProtocol.toYaml self) = .ok (Value.map (pruneFields self)) ∧
    noEmptyFieldsV (Value.map (pruneFields self)) = true := by
  constructor
  · unfold JobProtocol.toYaml removeEmptyProperties
    exact yamlLoad_yamlDump _
  · simp [noEmptyFieldsV, noEmptyFields_pruneFields self]

/-- C2: a Document (a constructed JobProtocol) with no empty-prunable
fields round-trips: parsing the serialized text yields the same
document. -/
theorem c2_roundtrip (props : Obj)
    (h : noEmptyFieldsF (JobProtocol.construct props) = true) :
    JobProtocol.fromYaml (JobProtocol.toYaml (JobProtocol.construct props)) =
      some (JobProtocol.construct props) := by
  unfold JobProtocol.toYaml JobProtocol.fromYaml removeEmptyProperties
  rw [pruneFields_of_noEmpty _ h, yamlLoad_yamlDump]
  simp [asPropsObj, construct_idem]

/-- Witness for C2 at concrete input: a document with every field
non-empty round-trips. -/
theorem c2_witness :
    noEmptyFieldsF (JobProtocol.construct
      [("name", Value.str "n"), ("description", Value.str "d"),
       ("contributor", Value.str "c"), ("jobRetryCount", Value.num 1),
       ("prerequisites", Value.seq [Value.str "p"]),
       ("parameters", Value.map [("k", Value.str "v")]),
       ("taskRoles", Value.map [("r", Value.map [("i", Value.num 1)])]),
       ("deployments", Value.map [("g", Value.num 3)]),
       ("secrets", Value.map [("s", Value.str "v")]),
       ("defaults", Value.map [("q", Value.str "w")]),
       ("extras", Value.map [("e", Value.num 5)])]) = true ∧
    JobProtocol.fromYaml (JobProtocol.toYaml (JobProtocol.construct
      [("name", Value.str "n"), ("description", Value.str "d"),
       ("contributor", Value.str "c"), ("jobRetryCount", Value.num 1),
       ("prerequisites", Value.seq [Value.str "p"]),
       ("parameters", Value.map [("k", Value.str "v")]),
       ("taskRoles", Value.map [("r", Value.map [("i", Value.num 1)])]),
       ("deployments", Value.map [("g", Value.num 3)]),
       ("secrets", Value.map [("s", Value.str "v")]),
       ("defaults", Value.map [("q", Value.str "w")]),
       ("extras", Value.map [("e", Value.num 5)])])) =
      some (JobProtocol.construct
      [("name", Value.str "n"), ("description", Value.str "d"),
       ("contributor", Value.str "c"), ("jobRetryCount", Value.num 1),
       ("prerequisites", Value.seq [Value.str "p"]),
       ("parameters", Value.map [("k", Value.str "v")]),
       ("taskRoles", Value.map [("r", Value.map [("i", Value.num 1)])]),
       ("deployments", Value.map [("g", Value.num 3)]),
       ("secrets", Value.map [("s", Value.str "v")]),
       ("defaults", Value.map [("q", Value.str "w")]),
       ("extras", Value.map [("e", Value.num 5)])]) :=
  ⟨by decide, c2_roundtrip _ (by decide)⟩

/-- C5: parameter and secret edits fold into the updated protocol's
mappings with later duplicate keys overwriting earlier values and
empty-valued entries removed; the lookup of any key in the resulting
mapping is the last value written for it unless that value is empty; the
spec's example [a:1, a:2, b:""] reduces to {a: "2"}. -/
theorem c5_edit_merge (self : Obj) (bi : JobBasicInfo) (roles : List TaskRole)
    (paramEdits secretEdits : List KeyValue) :
    (assocGet (JobProtocol.getUpdatedProtocol self bi roles paramEdits secretEdits)
        "parameters" =
      some (Value.map (removeEmptyProperties
        ((paramEdits.map (fun p => [(p.key, Value.str p.value)])).foldl
          keyValueArrayReducer [])))) ∧
    (assocGet (JobProtocol.getUpdatedProtocol self bi roles paramEdits secretEdits)
        "secrets" =
      some (Value.map (removeEmptyProperties
        ((secretEdits.map (fun p => [(p.key, Value.str p.value)])).foldl
          keyValueArrayReducer [])))) ∧
    (∀ (edits : List KeyValue) (k : String),
      assocGet (removeEmptyProperties
          ((edits.map (fun p => [(p.key, Value.str p.value)])).foldl
            keyValueArrayReducer [])) k =
        match edits.reverse.find? (fun e => e.key = k) with
        | some e => if e.value = "" then none else some (Value.str e.value)
        | none => none) ∧
    removeEmptyProperties
        ((([⟨"a", "1"⟩, ⟨"a", "2"⟩, ⟨"b", ""⟩] : List KeyValue).map
          (fun p => [(p.key, Value.str p.value)])).foldl keyValueArrayReducer []) =
      [("a", Value.str "2")] := by
  refine ⟨?_, ?_, ?_, by decide⟩
  · simp [JobProtocol.getUpdatedProtocol, JobProtocol.construct, assocGet, jsOrD,
      mergeObj, assocGet_assocSet, jsTruthy]
  · simp [JobProtocol.getUpdatedProtocol, JobProtocol.construct, assocGet, jsOrD,
      mergeObj, assocGet_assocSet, jsTruthy]
  · intro edits k
    have hnd : ((keyedFold (fun p => p.key) (fun p => Value.str p.value) edits).map
        (fun e => e.1)).Nodup := by
      rw [keys_keyedFold]
      exact nodup_firstOccurrences _
    rw [removeEmptyProperties, kv_fold_eq, assocGet_pruneFields _ hnd k,
      assocGet_keyedFold]
    cases hf : edits.reverse.find? (fun e => e.key = k) with
    | none => simp
    | some e => simp [pruneValue, isEmptyValue]

/-- C4: the prerequisites of the updated protocol are the task roles'
docker prerequisites deduplicated by name: one entry per distinct name, in
first-seen order of distinct names, each equal to the last-seen
prerequisite with that name. -/
theorem c4_prerequisite_dedup (self : Obj) (bi : JobBasicInfo) (roles : List TaskRole)
    (paramEdits secretEdits : List KeyValue) :
    (assocGet (JobProtocol.getUpdatedProtocol self bi roles paramEdits secretEdits)
        "prerequisites" =
      some (Value.seq (JobProtocol.getTaskRolesPrerequisites roles))) ∧
    ((JobProtocol.getTaskRolesPrerequisites roles).map nameKey =
      firstOccurrences ((roles.map (fun r => r.dockerPrerequisite)).map nameKey)) ∧
    ((JobProtocol.getTaskRolesPrerequisites roles).map nameKey).Nodup ∧
    (∀ v ∈ JobProtocol.getTaskRolesPrerequisites roles,
      (roles.map (fun r => r.dockerPrerequisite)).reverse.find?
        (fun w => nameKey w = nameKey v) = some v) := by
  have hfold : JobProtocol.getTaskRolesPrerequisites roles =
      (keyedFold nameKey (fun v => v)
        (roles.map (fun r => r.dockerPrerequisite))).map (fun e => e.2) := rfl
  have hkeys : (JobProtocol.getTaskRolesPrerequisites roles).map nameKey =
      firstOccurrences ((roles.map (fun r => r.dockerPrerequisite)).map nameKey) := by
    rw [hfold, List.map_map, ← keys_keyedFold nameKey (fun v => v)]
    apply List.map_congr_left
    intro e he
    obtain ⟨b, hb⟩ := mem_keyedFold _ _ _ _ he
    simp [hb, Function.comp]
  refine ⟨?_, hkeys, ?_, ?_⟩
  · simp [JobProtocol.getUpdatedProtocol, JobProtocol.construct, assocGet, jsOrD,
      mergeObj, assocGet_assocSet, jsTruthy, JobProtocol.getTaskRolesPrerequisites]
  · rw [hkeys]
    exact nodup_firstOccurrences _
  · intro v hv
    rw [hfold] at hv
    obtain ⟨e, he, hev⟩ := List.mem_map.mp hv
    obtain ⟨b, hb⟩ := mem_keyedFold _ _ _ _ he
    have hkey : e.1 = nameKey v := by
      rw [hb] at hev ⊢
      simp at hev
      simp [hev]
    have hnd : ((keyedFold nameKey (fun v => v)
        (roles.map (fun r => r.dockerPrerequisite))).map (fun e => e.1)).Nodup := by
      rw [keys_keyedFold]
      exact nodup_firstOccurrences _
    have hget := assocGet_of_mem_nodup _ hnd e he
    rw [assocGet_keyedFold, hkey, hev] at hget
    have := hget
    cases hf : (roles.map (fun r => r.dockerPrerequisite)).reverse.find?
        (fun w => nameKey w = nameKey v) with
    | none => rw [hf] at this; simp at this
    | some w => rw [hf] at this; simpa using this

/-- Witness for C4 at concrete input: the spec's [A, B, A2] example, where
A and A2 share the prerequisite name p1 — the surviving entry is A2's,
found as the last entry with that name. -/
theorem c4_witness :
    (Value.map [("name", Value.str "p1"), ("v", Value.num 2)]) ∈
      JobProtocol.getTaskRolesPrerequisites
        [⟨"A", Value.map [("name", Value.str "p1"), ("v", Value.num 1)], Value.str "", []⟩,
         ⟨"B", Value.map [("name", Value.str "p2")], Value.str "", []⟩,
         ⟨"A2", Value.map [("name", Value.str "p1"), ("v", Value.num 2)], Value.str "", []⟩] ∧
    (([⟨"A", Value.map [("name", Value.str "p1"), ("v", Value.num 1)], Value.str "", []⟩,
       ⟨"B", Value.map [("name", Value.str "p2")], Value.str "", []⟩,
       ⟨"A2", Value.map [("name", Value.str "p1"), ("v", Value.num 2)], Value.str "", []⟩] :
        List TaskRole).map (fun r => r.dockerPrerequisite)).reverse.find?
      (fun w => nameKey w = nameKey (Value.map [("name", Value.str "p1"), ("v", Value.num 2)])) =
      some (Value.map [("name", Value.str "p1"), ("v", Value.num 2)]) :=
  ⟨by decide,
   (c4_prerequisite_dedup [] ⟨[], []⟩ _ [] []).2.2.2
     (Value.map [("name", Value.str "p1"), ("v", Value.num 2)]) (by decide)⟩

/-! ## C9: the secret-pattern matcher -/

theorem takeWhile_all_append (ds : List Char) (l : List Char) (p : Char → Bool)
    (hds : ds.all p = true) (a : Char) (ha : p a = false) :
    (ds ++ a :: l).takeWhile p = ds := by
  induction ds with
  | nil => simp [List.takeWhile, ha]
  | cons c ds ih =>
    simp only [List.all_cons, Bool.and_eq_true] at hds
    simp [List.takeWhile, hds.1, ih hds.2]

theorem drop_length_takeWhile (l : List Char) (p : Char → Bool) :
    l.drop (l.takeWhile p).length = l.dropWhile p := by
  induction l with
  | nil => rfl
  | cons a l ih =>
    by_cases ha : p a = true
    · simp [List.takeWhile_cons, List.dropWhile_cons, ha, ih]
    · simp only [Bool.not_eq_true] at ha
      simp [List.takeWhile_cons, List.dropWhile_cons, ha]

theorem all_takeWhile_self (l : List Char) (p : Char → Bool) :
    (l.takeWhile p).all p = true := by
  induction l with
  | nil => rfl
  | cons a l ih =>
    by_cases ha : p a = true
    · simp [List.takeWhile_cons, ha, ih]
    · simp only [Bool.not_eq_true] at ha
      simp [List.takeWhile_cons, ha]

theorem takeWhile_append_dropWhile_self (l : List Char) (p : Char → Bool) :
    l.takeWhile p ++ l.dropWhile p = l := List.takeWhile_append_dropWhile p l

/-- Unfolding equation of the matcher on a fully decomposed input. -/
theorem secretPatternExec_eq (w d : Char) (cs : List Char) :
    secretPatternExec (String.mk
      ('<' :: '%' :: ' ' :: '$' :: 's' :: 'e' :: 'c' :: 'r' :: 'e' :: 't' :: 's' ::
        w :: d :: cs)) =
      if '<' = '<' ∧ '%' = '%' ∧ ' ' = ' ' ∧ '$' = '$' ∧ 's' = 's' ∧ 'e' = 'e' ∧ 'c' = 'c'
          ∧ 'r' = 'r' ∧ 'e' = 'e' ∧ 't' = 't' ∧ 's' = 's'
          ∧ regexAnyChar w = true ∧ isIdentStart d = true then
        match cs.drop (cs.takeWhile isIdentChar).length with
        | e0 :: e1 :: e2 :: _ =>
          if e0 = ' ' ∧ e1 = '%' ∧ e2 = '>' then
            some (String.mk (d :: cs.takeWhile isIdentChar))
          else none
        | _ => none
      else none := rfl

/-- Spec-side form of the claim's token grammar: the password begins with
the literal "<% $secrets.", then an identifier, then " %>", with arbitrary
trailing characters (stated from the claim's words, for comparison with
the embedded matcher). -/
def startsWithSecretToken (s : String) : Prop :=
  ∃ (d : Char) (ds : List Char) (rest : List Char),
    isIdentStart d = true ∧ ds.all isIdentChar = true ∧
    s.data = "<% $secrets.".data ++ d :: ds ++ " %>".data ++ rest

/-- C9 counterexample: the password "<% $secretsXk1 %>" does not begin
with a well-formed secret-reference token (its 12th character is 'X', not
'.'), yet the matcher accepts it and fromProtocol resolves the key k1 —
refuting the claim that a password without the token at position 0 does
not match. -/
theorem c9_counterexample :
    secretPatternExec "<% $secretsXk1 %>" = some "k1" ∧
    (DockerInfo.fromProtocol
        [("auth", Value.map [("password", Value.str "<% $secretsXk1 %>")])]
        [("k1", Value.str "hunter2")]).auth = [("password", Value.str "hunter2")] ∧
    ¬ startsWithSecretToken "<% $secretsXk1 %>" := by
  refine ⟨by decide, by decide, ?_⟩
  rintro ⟨d, ds, rest, hd, hds, heq⟩
  have hlit : "<% $secrets.".data =
      '<' :: '%' :: ' ' :: '$' :: 's' :: 'e' :: 'c' :: 'r' :: 'e' :: 't' :: 's' :: '.' :: [] :=
    rfl
  have hlit2 : "<% $secretsXk1 %>".data =
      '<' :: '%' :: ' ' :: '$' :: 's' :: 'e' :: 'c' :: 'r' :: 'e' :: 't' :: 's' :: 'X' ::
        'k' :: '1' :: ' ' :: '%' :: '>' :: [] := rfl
  rw [hlit, hlit2] at heq
  simp at heq

/-- C9 amended: the matcher is anchored at position 0 and ignores trailing
content, but the dot in the pattern is an unescaped regex wildcard: it
accepts exactly the passwords that begin with the literal `<% $secrets`,
one arbitrary non-line-terminator character, an identifier, and ` %>`.
Every password beginning with a well-formed token (dot included) whose
identifier names a present key still resolves — all as the claim states —
but a password can also match without a well-formed token at position 0.
Conjuncts: (1) every token-prefixed password matches, capturing the
identifier, for arbitrary trailing content; (2) any successful match has
the wildcard-relaxed shape; (3) a successful match whose key is present
resolves the secret into auth.password. -/
theorem c9_matcher_amended :
    (∀ (d : Char) (ds rest : List Char),
      isIdentStart d = true → ds.all isIdentChar = true →
      secretPatternExec (String.mk ("<% $secrets.".data ++ d :: ds ++ " %>".data ++ rest)) =
        some (String.mk (d :: ds))) ∧
    (∀ (s k : String), secretPatternExec s = some k →
      ∃ (w d : Char) (ds rest : List Char),
        s.data = '<' :: '%' :: ' ' :: '$' :: 's' :: 'e' :: 'c' :: 'r' :: 'e' :: 't' :: 's' ::
          w :: d :: (ds ++ ' ' :: '%' :: '>' :: rest) ∧
        regexAnyChar w = true ∧ isIdentStart d = true ∧ ds.all isIdentChar = true ∧
        k = String.mk (d :: ds)) ∧
    (∀ (p secrets : Obj) (k : String) (v : Value),
      secretPatternExec (jsToStr (lodashGet2 p "auth" "password" (.str ""))) = some k →
      assocGet secrets k = some v →
      (DockerInfo.fromProtocol p secrets).auth = assocSet (authObjOf p) "password" v) := by
  refine ⟨?_, ?_, ?_⟩
  · intro d ds rest hd hds
    have hnorm : "<% $secrets.".data ++ d :: ds ++ " %>".data ++ rest =
        '<' :: '%' :: ' ' :: '$' :: 's' :: 'e' :: 'c' :: 'r' :: 'e' :: 't' :: 's' :: '.' ::
          d :: (ds ++ ' ' :: '%' :: '>' :: rest) := by
      show ['<', '%', ' ', '$', 's', 'e', 'c', 'r', 'e', 't', 's', '.'] ++ d :: ds ++
        [' ', '%', '>'] ++ rest = _
      simp
    rw [hnorm, secretPatternExec_eq,
      if_pos ⟨rfl, rfl, rfl, rfl, rfl, rfl, rfl, rfl, rfl, rfl, rfl, by decide, hd⟩,
      takeWhile_all_append ds ('%' :: '>' :: rest) isIdentChar hds ' ' (by decide),
      drop_len_append]
    simp
  · intro s k h
    unfold secretPatternExec at h
    split at h
    · rename_i c0 c1 c2 c3 c4 c5 c6 c7 c8 c9 c10 w d cs heq
      split at h
      · rename_i hcond
        obtain ⟨h0, h1, h2, h3, h4, h5, h6, h7, h8, h9, h10, hw, hd⟩ := hcond
        split at h
        · rename_i e0 e1 e2 tail hdrop
          split at h
          · rename_i hee
            obtain ⟨he0, he1, he2⟩ := hee
            injection h with hk
            refine ⟨w, d, cs.takeWhile isIdentChar, tail, ?_, hw, hd,
              all_takeWhile_self cs isIdentChar, hk.symm⟩
            have hcs : cs = cs.takeWhile isIdentChar ++ (' ' :: '%' :: '>' :: tail) := by
              conv_lhs => rw [← takeWhile_append_dropWhile_self cs isIdentChar]
              rw [← drop_length_takeWhile cs isIdentChar, hdrop, he0, he1, he2]
            rw [heq, h0, h1, h2, h3, h4, h5, h6, h7, h8, h9, h10, ← hcs]
          · exact absurd h (by simp)
        · exact absurd h (by simp)
      · exact absurd h (by simp)
    · exact absurd h (by simp)
  · intro p secrets k v hexec hsec
    unfold DockerInfo.fromProtocol
    have hk : ¬ (k = "") := secretPatternExec_ne_empty _ k hexec
    simp only [hexec, if_neg hk, hsec]
    simp [DockerInfo.construct, assocGet_assocSet]

/-- Witness for C9 at concrete input: the spec's own example password
"<% $secrets.k1 %>" with trailing garbage still matches and resolves. -/
theorem c9_witness :
    isIdentStart 'k' = true ∧ ([ '1' ] : List Char).all isIdentChar = true ∧
    secretPatternExec (String.mk ("<% $secrets.".data ++ 'k' :: ['1'] ++ " %>".data ++
      "garbage".data)) = some (String.mk ('k' :: ['1'])) ∧
    assocGet ([("k1", Value.str "hunter2")] : Obj) "k1" = some (Value.str "hunter2") ∧
    (DockerInfo.fromProtocol
        [("auth", Value.map [("password", Value.str "<% $secrets.k1 %>garbage")])]
        [("k1", Value.str "hunter2")]).auth =
      assocSet (authObjOf
        [("auth", Value.map [("password", Value.str "<% $secrets.k1 %>garbage")])])
        "password" (Value.str "hunter2") :=
  ⟨by decide, by decide,
   c9_matcher_amended.1 'k' ['1'] "garbage".data (by decide) (by decide),
   by decide,
   c9_matcher_amended.2.2
     [("auth", Value.map [("password", Value.str "<% $secrets.k1 %>garbage")])]
     [("k1", Value.str "hunter2")] "k1" (Value.str "hunter2") (by decide) (by decide)⟩
